import Mathlib

/-!
Shallow embedding of the `parse_mediawiki_dump` crate (src/lib.rs), a streaming
parser for MediaWiki XML dumps, together with proofs about the claims of its
specification.

The external XML reader (`quick_xml::Reader` with `expand_empty_elements(true)`)
is modelled as a finite list of already-lexed, namespace-resolved events, each
tagged with the byte position that `Reader::buffer_position()` reports right
after the event has been consumed.  When the list is exhausted the model read
returns `none`, corresponding to `quick_xml` returning `Ok(Event::Eof)` over and
over (the reader of this crate's `quick_xml` version keeps returning
`Ok(Event::Eof)` once the well-formed input is exhausted; it does not raise an
error).  `Event.other` stands for every event kind the code treats uniformly via
catch-all arms (comments, CData, processing instructions, declarations).
Because `expand_empty_elements(true)` is set, self-closing tags appear as a
start event followed by an end event.  The loops of `next` and `skip_element`
are modelled with an explicit fuel parameter; a result of `none` means the
computation did not finish within the given fuel.
-/

namespace ParseMediawikiDump

/-- A lexical event as delivered by `read_namespaced_event`: the resolved
namespace of a start tag, its local name and its (already decoded) attributes;
end tags; text content; and everything else the parser ignores uniformly. -/
inductive Event where
  | start (ns : Option String) (name : String) (attrs : List (String × String)) : Event
  | endTag : Event
  | text (t : String) : Event
  | other : Event

/-- An event tagged with the byte position `buffer_position()` reports after it. -/
abbrev TE := Event × Nat

/-- Model of the `quick_xml::Reader` cursor: remaining events and the current
byte position (the position after the last consumed event, initially 0). -/
structure Reader where
  events : List TE
  pos : Nat

/-- One call of `read_namespaced_event`: `none` models `Event::Eof` (the reader
state is unchanged), otherwise the event is consumed and the position advances
to the position recorded for that event. -/
def Reader.read : Reader → Option Event × Reader
  | ⟨[], pos⟩ => (none, ⟨[], pos⟩)
  | ⟨(e, p) :: rest, _⟩ => (some e, ⟨rest, p⟩)

/-- The single recognized export namespace URI (src/lib.rs line 360). -/
def exportNS : String := "http://www.mediawiki.org/xml/export-0.10/"

/-- `match_namespace` (src/lib.rs lines 356-363). -/
def match_namespace : Option String → Bool
  | none => false
  | some ns => ns == exportNS

/-- The error type of the parser (src/lib.rs lines 217-236).  `XmlReader` wraps
errors of the external reader; the model event source is infallible, so this
constructor never occurs in a model run. -/
inductive Error where
  | Format (position : Nat) : Error
  | NotSupported (position : Nat) : Error
  | XmlReader : Error
  | Namespace (id : Int) (position : Nat) : Error

/-- The parsed page record (src/lib.rs lines 252-296), generic over the
namespace type. -/
structure Page (N : Type) where
  format : Option String
  model : Option String
  «namespace» : N
  text : String
  title : String
  redirect_title : Option String

/-- Rust `i32::from_str` as used by `.parse::<NamespaceId>()`: an optional sign
followed by one or more ASCII digits, with the signed 32-bit range check. -/
def digitsToNat : List Char → Nat → Option Nat
  | [], acc => some acc
  | c :: rest, acc =>
    if '0' ≤ c ∧ c ≤ '9' then digitsToNat rest (acc * 10 + (c.toNat - '0'.toNat))
    else none

/-- The digit run of an `i32` literal, after the optional sign, with the
range check (`2147483648` is representable only when negated). -/
def parseI32Digits (l : List Char) (neg : Bool) : Option Int :=
  match l with
  | [] => none
  | _ :: _ =>
    match digitsToNat l 0 with
    | none => none
    | some n =>
      if neg then
        if n ≤ 2147483648 then some (-(n : Int)) else none
      else
        if n ≤ 2147483647 then some ((n : Int)) else none

/-- `<NamespaceId as FromStr>::from_str` (src/lib.rs lines 124-129), the parse
of the `ns` element text as a signed 32-bit integer. -/
def parseI32 (s : String) : Option Int :=
  match s.data with
  | [] => none
  | '+' :: rest => parseI32Digits rest false
  | '-' :: rest => parseI32Digits rest true
  | l => parseI32Digits l false

/-- The `title` attribute lookup on a `redirect` start tag (src/lib.rs lines
436-439): the first attribute whose key is `title`. -/
def findTitleAttr (attrs : List (String × String)) : Option String :=
  (attrs.find? (fun attr => attr.1 == "title")).map (fun attr => attr.2)

/-- The conversion `FromNamespaceId` used by `parse` (src/lib.rs lines 554-556):
for the default namespace type `NamespaceId` the `TryInto`-derived conversion is
the identity and always succeeds. -/
def idConv : Int → Option Int := fun n => some n

/-- `parse_text` (src/lib.rs lines 576-609).  On an error the reader state at
the point of the error is returned alongside, mirroring that the Rust parser
keeps its advanced reader. -/
def parse_text {α : Type} (s : Reader) (output : Option α) :
    Except (Error × Reader) (String × Reader) :=
  if output.isSome then .error (.Format s.pos, s)
  else
    match s.read with
    | (some (Event.text t), s1) =>
      match s1.read with
      | (some Event.endTag, s2) => .ok (t, s2)
      | (_, s2) => .error (.Format s2.pos, s2)
    | (some Event.endTag, s1) => .ok ("", s1)
    | (_, s1) => .error (.Format s1.pos, s1)

/-- `skip_element` (src/lib.rs lines 611-635): discard events until the end tag
matching the already-consumed start tag, tracking nesting with `level`.
`Event::Eof` falls into the catch-all arm and loops, so fuel can run out. -/
def skip_element : Nat → Reader → Nat → Option Reader
  | 0, _, _ => none
  | fuel + 1, s, level =>
    match s.read with
    | (some Event.endTag, s') =>
      if level = 0 then some s' else skip_element fuel s' (level - 1)
    | (some (Event.start _ _ _), s') => skip_element fuel s' (level + 1)
    | (_, s') => skip_element fuel s' level

/-- The inner `revision` loop of `next` (src/lib.rs lines 492-535), reading
`format`/`model`/`text` children until the end tag of the `revision` element.
On success it returns the reader together with the updated three fields. -/
def revision_loop : Nat → Reader → Option String → Option String → Option String →
    Option (Except (Error × Reader) (Reader × Option String × Option String × Option String))
  | 0, _, _, _, _ => none
  | fuel + 1, s, format, model, text =>
    match s.read with
    | (some Event.endTag, s') =>
      match text with
      | none => some (.error (.Format s'.pos, s'))
      | some _ => some (.ok (s', format, model, text))
    | (some (Event.start ns name _), s') =>
      if match_namespace ns then
        if name = "format" then
          match parse_text s' format with
          | .error e => some (.error e)
          | .ok (t, s2) => revision_loop fuel s2 (some t) model text
        else if name = "model" then
          match parse_text s' model with
          | .error e => some (.error e)
          | .ok (t, s2) => revision_loop fuel s2 format (some t) text
        else if name = "text" then
          match parse_text s' text with
          | .error e => some (.error e)
          | .ok (t, s2) => revision_loop fuel s2 format model (some t)
        else
          match skip_element fuel s' 0 with
          | none => none
          | some s2 => revision_loop fuel s2 format model text
      else
        match skip_element fuel s' 0 with
        | none => none
        | some s2 => revision_loop fuel s2 format model text
    | (some _, s') => revision_loop fuel s' format model text
    | (none, s') => revision_loop fuel s' format model text

/-- The `page` loop of `next` (src/lib.rs lines 408-544), collecting the six
fields of one `page` element and returning the completed record at its end tag.
The six accumulator arguments mirror the mutable locals of `next`. -/
def page_loop {N : Type} (conv : Int → Option N) :
    Nat → Reader → Option String → Option String → Option N → Option String →
    Option String → Option String →
    Option (Except (Error × Reader) (Page N × Reader))
  | 0, _, _, _, _, _, _, _ => none
  | fuel + 1, s, format, model, namespaceVal, redirect_title, text, title =>
    match s.read with
    | (some Event.endTag, s') =>
      match namespaceVal, text, title with
      | some n, some tx, some ti =>
        some (.ok (⟨format, model, n, tx, ti, redirect_title⟩, s'))
      | _, _, _ => some (.error (.Format s'.pos, s'))
    | (some (Event.start ns name attrs), s') =>
      if match_namespace ns then
        if name = "ns" then
          match parse_text s' namespaceVal with
          | .error e => some (.error e)
          | .ok (t, s2) =>
            match parseI32 t with
            | none => some (.error (.Format s2.pos, s2))
            | some value =>
              match conv value with
              | none => some (.error (.Namespace value s2.pos, s2))
              | some n =>
                page_loop conv fuel s2 format model (some n) redirect_title text title
        else if name = "redirect" then
          match findTitleAttr attrs with
          | none => some (.error (.Format s'.pos, s'))
          | some t =>
            match skip_element fuel s' 0 with
            | none => none
            | some s2 =>
              page_loop conv fuel s2 format model namespaceVal (some t) text title
        else if name = "revision" then
          if text.isSome then some (.error (.NotSupported s'.pos, s'))
          else
            match revision_loop fuel s' format model text with
            | none => none
            | some (.error e) => some (.error e)
            | some (.ok (s2, f', m', t')) =>
              page_loop conv fuel s2 f' m' namespaceVal redirect_title t' title
        else if name = "title" then
          match parse_text s' title with
          | .error e => some (.error e)
          | .ok (t, s2) =>
            page_loop conv fuel s2 format model namespaceVal redirect_title text (some t)
        else
          match skip_element fuel s' 0 with
          | none => none
          | some s2 =>
            page_loop conv fuel s2 format model namespaceVal redirect_title text title
      else
        match skip_element fuel s' 0 with
        | none => none
        | some s2 =>
          page_loop conv fuel s2 format model namespaceVal redirect_title text title
    | (some _, s') =>
      page_loop conv fuel s' format model namespaceVal redirect_title text title
    | (none, s') =>
      page_loop conv fuel s' format model namespaceVal redirect_title text title

/-- The outer loop of `next` after the root has been entered (src/lib.rs lines
387-401): an end tag means exhaustion (`Ok(None)`), a `page` start tag in the
export namespace starts a fresh page with all fields absent, any other start tag
is skipped, everything else is ignored. -/
def root_loop {N : Type} (conv : Int → Option N) :
    Nat → Reader → Option (Except (Error × Reader) (Option (Page N) × Reader))
  | 0, _ => none
  | fuel + 1, s =>
    match s.read with
    | (some Event.endTag, s') => some (.ok (none, s'))
    | (some (Event.start ns name _), s') =>
      if match_namespace ns && name == "page" then
        match page_loop conv fuel s' none none none none none none with
        | none => none
        | some (.error e) => some (.error e)
        | some (.ok (pg, s2)) => some (.ok (some pg, s2))
      else
        match skip_element fuel s' 0 with
        | none => none
        | some s2 => root_loop conv fuel s2
    | (some _, s') => root_loop conv fuel s'
    | (none, s') => root_loop conv fuel s'

/-- The initial scan for the root element (src/lib.rs lines 368-385): discard
events until a start tag appears; it must be `mediawiki` in the export
namespace, otherwise a format error is raised. -/
def scan_root : Nat → Reader → Option (Except (Error × Reader) Reader)
  | 0, _ => none
  | fuel + 1, s =>
    match s.read with
    | (some (Event.start ns name _), s') =>
      if match_namespace ns && name == "mediawiki" then some (.ok s')
      else some (.error (.Format s'.pos, s'))
    | (some _, s') => scan_root fuel s'
    | (none, s') => scan_root fuel s'

/-- One call of `fn next` (src/lib.rs lines 365-546) combined with the
`Iterator` state: the boolean is the `started` flag of `Parser`, set to true
once the root scan has completed (line 385); it is the only state besides the
reader, so it is returned with every outcome. -/
def next {N : Type} (conv : Int → Option N) (fuel : Nat) (s : Reader) (started : Bool) :
    Option (Except (Error × Reader × Bool) (Option (Page N) × Reader × Bool)) :=
  if started then
    match root_loop conv fuel s with
    | none => none
    | some (.error (e, s')) => some (.error (e, s', true))
    | some (.ok (r, s')) => some (.ok (r, s', true))
  else
    match scan_root fuel s with
    | none => none
    | some (.error (e, s')) => some (.error (e, s', false))
    | some (.ok s') =>
      match root_loop conv fuel s' with
      | none => none
      | some (.error (e, s2)) => some (.error (e, s2, true))
      | some (.ok (r, s2)) => some (.ok (r, s2, true))

/-- The result sequence of the iterator: pull `next` up to `steps` times;
recording completed pages until exhaustion (`Ok(None)`) ends the sequence or a
first error ends it with that error.  `none` means some call did not terminate
within the fuel (or `steps` ran out). -/
def collect {N : Type} (conv : Int → Option N) (fuel : Nat) :
    Nat → Reader → Bool → Option (List (Except Error (Page N)))
  | 0, _, _ => none
  | steps + 1, s, started =>
    match next conv fuel s started with
    | none => none
    | some (.error (e, _, _)) => some [.error e]
    | some (.ok (none, _, _)) => some []
    | some (.ok (some pg, s', st')) =>
      match collect conv fuel steps s' st' with
      | none => none
      | some l => some (.ok pg :: l)

/-- The byte position after the last event of `l`, or `pos` if `l` is empty:
the reader position after consuming all of `l` starting from position `pos`. -/
def lastPos : List TE → Nat → Nat
  | [], pos => pos
  | (_, p) :: rest, _ => lastPos rest p

theorem lastPos_append (a b : List TE) (pos : Nat) :
    lastPos (a ++ b) pos = lastPos b (lastPos a pos) := by
  induction a generalizing pos with
  | nil => rfl
  | cons e a ih => cases e; simp [lastPos, ih]

/-- The events forming the remainder of one complete element whose start tag has
already been consumed: any mix of text/other events and complete nested
elements, terminated by the matching end tag.  This is exactly the shape of
subtree `skip_element` is invoked on. -/
inductive SkipBody : List TE → Prop where
  | endTag (p : Nat) : SkipBody [(Event.endTag, p)]
  | text (t : String) (p : Nat) (rest : List TE) :
      SkipBody rest → SkipBody ((Event.text t, p) :: rest)
  | other (p : Nat) (rest : List TE) :
      SkipBody rest → SkipBody ((Event.other, p) :: rest)
  | nested (ns : Option String) (name : String) (attrs : List (String × String))
      (p : Nat) (inner rest : List TE) :
      SkipBody inner → SkipBody rest →
      SkipBody ((Event.start ns name attrs, p) :: inner ++ rest)

/-- `skip_element` consumes exactly a `SkipBody` (one fuel per event): at entry
level `lv + 1` it lowers the level back to `lv` with the body consumed, and at
entry level `0` it returns with the body consumed. -/
theorem skip_element_spec {l : List TE} (h : SkipBody l) :
    ∀ (tail : List TE) (pos lv g : Nat),
      skip_element (l.length + g) ⟨l ++ tail, pos⟩ (lv + 1) =
        skip_element g ⟨tail, lastPos l pos⟩ lv ∧
      skip_element (l.length + g) ⟨l ++ tail, pos⟩ 0 =
        some ⟨tail, lastPos l pos⟩ := by
  induction h with
  | endTag p =>
    intro tail pos lv g
    have hl : ([(Event.endTag, p)] : List TE).length + g = g + 1 := by
      simp [Nat.add_comm]
    rw [hl]
    constructor
    · simp [skip_element, Reader.read, lastPos]
    · simp [skip_element, Reader.read, lastPos]
  | text t p rest _ ih =>
    intro tail pos lv g
    have hl : rest.length + 1 + g = (rest.length + g) + 1 := by omega
    constructor
    · show skip_element (rest.length + 1 + g) _ _ = _
      rw [hl]
      simpa [skip_element, Reader.read, lastPos] using (ih tail p lv g).1
    · show skip_element (rest.length + 1 + g) _ _ = _
      rw [hl]
      simpa [skip_element, Reader.read, lastPos] using (ih tail p lv g).2
  | other p rest _ ih =>
    intro tail pos lv g
    have hl : rest.length + 1 + g = (rest.length + g) + 1 := by omega
    constructor
    · show skip_element (rest.length + 1 + g) _ _ = _
      rw [hl]
      simpa [skip_element, Reader.read, lastPos] using (ih tail p lv g).1
    · show skip_element (rest.length + 1 + g) _ _ = _
      rw [hl]
      simpa [skip_element, Reader.read, lastPos] using (ih tail p lv g).2
  | nested ns name attrs p inner rest _ _ ih1 ih2 =>
    intro tail pos lv g
    have hlen : ((Event.start ns name attrs, p) :: inner ++ rest).length + g =
        (inner.length + (rest.length + g)) + 1 := by
      simp [List.length_append]; omega
    have hlast : lastPos ((Event.start ns name attrs, p) :: inner ++ rest) pos =
        lastPos rest (lastPos inner p) := by
      simp [lastPos, lastPos_append]
    constructor
    · rw [hlen, hlast]
      have step : skip_element ((inner.length + (rest.length + g)) + 1)
          ⟨((Event.start ns name attrs, p) :: inner ++ rest) ++ tail, pos⟩ (lv + 1) =
          skip_element (inner.length + (rest.length + g))
            ⟨inner ++ (rest ++ tail), p⟩ (lv + 2) := by
        simp [skip_element, Reader.read, List.append_assoc]
      rw [step, (ih1 (rest ++ tail) p (lv + 1) (rest.length + g)).1,
        (ih2 tail (lastPos inner p) lv g).1]
    · rw [hlen, hlast]
      have step : skip_element ((inner.length + (rest.length + g)) + 1)
          ⟨((Event.start ns name attrs, p) :: inner ++ rest) ++ tail, pos⟩ 0 =
          skip_element (inner.length + (rest.length + g))
            ⟨inner ++ (rest ++ tail), p⟩ 1 := by
        simp [skip_element, Reader.read, List.append_assoc]
      rw [step]
      have h1 := (ih1 (rest ++ tail) p 0 (rest.length + g)).1
      rw [Nat.zero_add] at h1
      rw [h1, (ih2 tail (lastPos inner p) 0 g).2]

/-- The content of one simple field element after its start tag: either a text
event immediately followed by the end tag, or the end tag alone (empty value,
the expanded form of a self-closing tag). -/
inductive FieldBody : List TE → String → Prop where
  | text (t : String) (p q : Nat) : FieldBody [(Event.text t, p), (Event.endTag, q)] t
  | empty (p : Nat) : FieldBody [(Event.endTag, p)] ""

theorem field_body_spec {α : Type} {body : List TE} {str : String}
    (h : FieldBody body str) (tail : List TE) (pos : Nat) :
    parse_text (α := α) ⟨body ++ tail, pos⟩ none =
      .ok (str, ⟨tail, lastPos body pos⟩) := by
  cases h with
  | text t p q => simp [parse_text, Reader.read, lastPos]
  | empty p => simp [parse_text, Reader.read, lastPos]

/-- Well-formed content of one `revision` element after its start tag, per the
input contract: at most one `format` and one `model`, exactly one `text`,
unknown elements and stray text freely interleaved, closed by the end tag.  The
first three indices are the field values already collected when the content
begins, the last three the values at its end. -/
inductive RevBody : Option String → Option String → Option String → List TE →
    Option String → Option String → String → Prop where
  | done (f m : Option String) (tx : String) (p : Nat) :
      RevBody f m (some tx) [(Event.endTag, p)] f m tx
  | fmt (m t : Option String) (attrs : List (String × String)) (p : Nat)
      (body : List TE) (str : String) (rest : List TE)
      (f' m' : Option String) (tx : String) :
      FieldBody body str → RevBody (some str) m t rest f' m' tx →
      RevBody none m t
        ((Event.start (some exportNS) "format" attrs, p) :: body ++ rest) f' m' tx
  | mdl (f t : Option String) (attrs : List (String × String)) (p : Nat)
      (body : List TE) (str : String) (rest : List TE)
      (f' m' : Option String) (tx : String) :
      FieldBody body str → RevBody f (some str) t rest f' m' tx →
      RevBody f none t
        ((Event.start (some exportNS) "model" attrs, p) :: body ++ rest) f' m' tx
  | txt (f m : Option String) (attrs : List (String × String)) (p : Nat)
      (body : List TE) (str : String) (rest : List TE)
      (f' m' : Option String) (tx : String) :
      FieldBody body str → RevBody f m (some str) rest f' m' tx →
      RevBody f m none
        ((Event.start (some exportNS) "text" attrs, p) :: body ++ rest) f' m' tx
  | unknown (f m t : Option String) (ns : Option String) (name : String)
      (attrs : List (String × String)) (p : Nat) (body rest : List TE)
      (f' m' : Option String) (tx : String) :
      (match_namespace ns && (name == "format" || name == "model" || name == "text"))
        = false →
      SkipBody body → RevBody f m t rest f' m' tx →
      RevBody f m t ((Event.start ns name attrs, p) :: body ++ rest) f' m' tx
  | misc (f m t : Option String) (s : String) (p : Nat) (rest : List TE)
      (f' m' : Option String) (tx : String) :
      RevBody f m t rest f' m' tx →
      RevBody f m t ((Event.text s, p) :: rest) f' m' tx
  | other (f m t : Option String) (p : Nat) (rest : List TE)
      (f' m' : Option String) (tx : String) :
      RevBody f m t rest f' m' tx →
      RevBody f m t ((Event.other, p) :: rest) f' m' tx

/-- On well-formed revision content the revision loop terminates with the
closing end tag consumed and the fields as the grammar records them. -/
theorem rev_body_spec {f m t : Option String} {body : List TE}
    {f' m' : Option String} {tx : String} (h : RevBody f m t body f' m' tx) :
    ∀ (tail : List TE) (pos : Nat), ∃ fl, ∀ g,
      revision_loop (fl + g) ⟨body ++ tail, pos⟩ f m t =
        some (.ok (⟨tail, lastPos body pos⟩, f', m', some tx)) := by
  induction h with
  | done f m tx p =>
    intro tail pos
    refine ⟨1, fun g => ?_⟩
    have harith : 1 + g = g + 1 := Nat.add_comm 1 g
    rw [harith]
    simp [revision_loop, Reader.read, lastPos]
  | fmt m t attrs p fbody str rest f' m' tx h1 _ ih =>
    intro tail pos
    obtain ⟨fl, hfl⟩ := ih tail (lastPos fbody p)
    refine ⟨fl + 1, fun g => ?_⟩
    have harith : fl + 1 + g = (fl + g) + 1 := by omega
    rw [harith]
    simp [revision_loop, Reader.read, match_namespace, lastPos, lastPos_append,
      field_body_spec h1, hfl g]
  | mdl f t attrs p fbody str rest f' m' tx h1 _ ih =>
    intro tail pos
    obtain ⟨fl, hfl⟩ := ih tail (lastPos fbody p)
    refine ⟨fl + 1, fun g => ?_⟩
    have harith : fl + 1 + g = (fl + g) + 1 := by omega
    rw [harith]
    simp [revision_loop, Reader.read, match_namespace, lastPos, lastPos_append,
      field_body_spec h1, hfl g]
  | txt f m attrs p fbody str rest f' m' tx h1 _ ih =>
    intro tail pos
    obtain ⟨fl, hfl⟩ := ih tail (lastPos fbody p)
    refine ⟨fl + 1, fun g => ?_⟩
    have harith : fl + 1 + g = (fl + g) + 1 := by omega
    rw [harith]
    simp [revision_loop, Reader.read, match_namespace, lastPos, lastPos_append,
      field_body_spec h1, hfl g]
  | unknown f m t ns name attrs p sbody rest f' m' tx hb hsb _ ih =>
    intro tail pos
    obtain ⟨fl, hfl⟩ := ih tail (lastPos sbody p)
    refine ⟨sbody.length + fl + 1, fun g => ?_⟩
    have harith : sbody.length + fl + 1 + g = (sbody.length + (fl + g)) + 1 := by
      omega
    rw [harith]
    have hskip := (skip_element_spec hsb (rest ++ tail) p 0 (fl + g)).2
    have hcont := hfl (sbody.length + g)
    have harith2 : fl + (sbody.length + g) = sbody.length + (fl + g) := by omega
    rw [harith2] at hcont
    by_cases hmn : match_namespace ns = true
    · have hb' : (name == "format" || name == "model" || name == "text") = false := by
        simpa [hmn] using hb
      simp only [Bool.or_eq_false_iff, beq_eq_false_iff_ne] at hb'
      obtain ⟨⟨hn1, hn2⟩, hn3⟩ := hb'
      simp [revision_loop, Reader.read, hmn, hn1, hn2, hn3, hskip, hcont,
        lastPos, lastPos_append]
    · simp [revision_loop, Reader.read, hmn, hskip, hcont, lastPos, lastPos_append]
  | misc f m t s p rest f' m' tx _ ih =>
    intro tail pos
    obtain ⟨fl, hfl⟩ := ih tail p
    refine ⟨fl + 1, fun g => ?_⟩
    have harith : fl + 1 + g = (fl + g) + 1 := by omega
    rw [harith]
    simp [revision_loop, Reader.read, lastPos, hfl g]
  | other f m t p rest f' m' tx _ ih =>
    intro tail pos
    obtain ⟨fl, hfl⟩ := ih tail p
    refine ⟨fl + 1, fun g => ?_⟩
    have harith : fl + 1 + g = (fl + g) + 1 := by omega
    rw [harith]
    simp [revision_loop, Reader.read, lastPos, hfl g]

/-- Well-formed content of one `page` element after its start tag, per the
input contract: exactly one `ns` (with text parsing as a signed 32-bit
integer), exactly one `title`, exactly one `revision` (with well-formed
content), optional `redirect` elements each carrying a `title` attribute,
unknown elements and stray text freely interleaved, in any order, closed by the
end tag.  The first six indices are the field values already collected when the
content begins; the last index is the record the page denotes. -/
inductive PageBody : Option String → Option String → Option Int → Option String →
    Option String → Option String → List TE → Page Int → Prop where
  | done (f m : Option String) (n : Int) (rd : Option String) (tx ti : String)
      (p : Nat) :
      PageBody f m (some n) rd (some tx) (some ti) [(Event.endTag, p)]
        ⟨f, m, n, tx, ti, rd⟩
  | nsElem (f m : Option String) (rd tx ti : Option String)
      (attrs : List (String × String)) (p : Nat) (body : List TE) (str : String)
      (k : Int) (rest : List TE) (pg : Page Int) :
      FieldBody body str → parseI32 str = some k →
      PageBody f m (some k) rd tx ti rest pg →
      PageBody f m none rd tx ti
        ((Event.start (some exportNS) "ns" attrs, p) :: body ++ rest) pg
  | titleElem (f m : Option String) (n : Option Int) (rd tx : Option String)
      (attrs : List (String × String)) (p : Nat) (body : List TE) (str : String)
      (rest : List TE) (pg : Page Int) :
      FieldBody body str → PageBody f m n rd tx (some str) rest pg →
      PageBody f m n rd tx none
        ((Event.start (some exportNS) "title" attrs, p) :: body ++ rest) pg
  | redirectElem (f m : Option String) (n : Option Int) (rd tx ti : Option String)
      (attrs : List (String × String)) (p : Nat) (t : String) (body rest : List TE)
      (pg : Page Int) :
      findTitleAttr attrs = some t → SkipBody body →
      PageBody f m n (some t) tx ti rest pg →
      PageBody f m n rd tx ti
        ((Event.start (some exportNS) "redirect" attrs, p) :: body ++ rest) pg
  | revisionElem (n : Option Int) (rd ti : Option String)
      (attrs : List (String × String)) (p : Nat) (body : List TE)
      (f' m' : Option String) (tx' : String) (rest : List TE) (pg : Page Int) :
      RevBody none none none body f' m' tx' →
      PageBody f' m' n rd (some tx') ti rest pg →
      PageBody none none n rd none ti
        ((Event.start (some exportNS) "revision" attrs, p) :: body ++ rest) pg
  | unknown (f m : Option String) (n : Option Int) (rd tx ti : Option String)
      (ns : Option String) (name : String) (attrs : List (String × String))
      (p : Nat) (body rest : List TE) (pg : Page Int) :
      (match_namespace ns &&
        (name == "ns" || name == "redirect" || name == "revision" || name == "title"))
        = false →
      SkipBody body → PageBody f m n rd tx ti rest pg →
      PageBody f m n rd tx ti ((Event.start ns name attrs, p) :: body ++ rest) pg
  | misc (f m : Option String) (n : Option Int) (rd tx ti : Option String)
      (s : String) (p : Nat) (rest : List TE) (pg : Page Int) :
      PageBody f m n rd tx ti rest pg →
      PageBody f m n rd tx ti ((Event.text s, p) :: rest) pg
  | other (f m : Option String) (n : Option Int) (rd tx ti : Option String)
      (p : Nat) (rest : List TE) (pg : Page Int) :
      PageBody f m n rd tx ti rest pg →
      PageBody f m n rd tx ti ((Event.other, p) :: rest) pg

/-- On well-formed page content the page loop (with the default identity
namespace conversion of `parse`) terminates at the page's end tag and emits the
record the grammar denotes. -/
theorem page_body_spec {f m : Option String} {n : Option Int} {rd tx ti : Option String}
    {body : List TE} {pg : Page Int} (h : PageBody f m n rd tx ti body pg) :
    ∀ (tail : List TE) (pos : Nat), ∃ fl, ∀ g,
      page_loop idConv (fl + g) ⟨body ++ tail, pos⟩ f m n rd tx ti =
        some (.ok (pg, ⟨tail, lastPos body pos⟩)) := by
  induction h with
  | done f m n rd tx ti p =>
    intro tail pos
    refine ⟨1, fun g => ?_⟩
    have harith : 1 + g = g + 1 := Nat.add_comm 1 g
    rw [harith]
    simp [page_loop, Reader.read, lastPos]
  | nsElem f m rd tx ti attrs p fbody str k rest pg h1 hk _ ih =>
    intro tail pos
    obtain ⟨fl, hfl⟩ := ih tail (lastPos fbody p)
    refine ⟨fl + 1, fun g => ?_⟩
    have harith : fl + 1 + g = (fl + g) + 1 := by omega
    rw [harith]
    simp [page_loop, Reader.read, match_namespace, lastPos, lastPos_append,
      field_body_spec h1, hk, idConv, hfl g]
  | titleElem f m n rd tx attrs p fbody str rest pg h1 _ ih =>
    intro tail pos
    obtain ⟨fl, hfl⟩ := ih tail (lastPos fbody p)
    refine ⟨fl + 1, fun g => ?_⟩
    have harith : fl + 1 + g = (fl + g) + 1 := by omega
    rw [harith]
    simp [page_loop, Reader.read, match_namespace, lastPos, lastPos_append,
      field_body_spec h1, hfl g]
  | redirectElem f m n rd tx ti attrs p t sbody rest pg hattr hsb _ ih =>
    intro tail pos
    obtain ⟨fl, hfl⟩ := ih tail (lastPos sbody p)
    refine ⟨sbody.length + fl + 1, fun g => ?_⟩
    have harith : sbody.length + fl + 1 + g = (sbody.length + (fl + g)) + 1 := by
      omega
    rw [harith]
    have hskip := (skip_element_spec hsb (rest ++ tail) p 0 (fl + g)).2
    have hcont := hfl (sbody.length + g)
    have harith2 : fl + (sbody.length + g) = sbody.length + (fl + g) := by omega
    rw [harith2] at hcont
    simp [page_loop, Reader.read, match_namespace, lastPos, lastPos_append,
      hattr, hskip, hcont]
  | revisionElem n rd ti attrs p rbody f' m' tx' rest pg hrev _ ih =>
    intro tail pos
    obtain ⟨flr, hflr⟩ := rev_body_spec hrev (rest ++ tail) p
    obtain ⟨fl, hfl⟩ := ih tail (lastPos rbody p)
    refine ⟨flr + fl + 1, fun g => ?_⟩
    have harith : flr + fl + 1 + g = (flr + (fl + g)) + 1 := by omega
    rw [harith]
    have hcont := hfl (flr + g)
    have harith2 : fl + (flr + g) = flr + (fl + g) := by omega
    rw [harith2] at hcont
    simp [page_loop, Reader.read, match_namespace, lastPos, lastPos_append,
      hflr (fl + g), hcont]
  | unknown f m n rd tx ti ns name attrs p sbody rest pg hb hsb _ ih =>
    intro tail pos
    obtain ⟨fl, hfl⟩ := ih tail (lastPos sbody p)
    refine ⟨sbody.length + fl + 1, fun g => ?_⟩
    have harith : sbody.length + fl + 1 + g = (sbody.length + (fl + g)) + 1 := by
      omega
    rw [harith]
    have hskip := (skip_element_spec hsb (rest ++ tail) p 0 (fl + g)).2
    have hcont := hfl (sbody.length + g)
    have harith2 : fl + (sbody.length + g) = sbody.length + (fl + g) := by omega
    rw [harith2] at hcont
    by_cases hmn : match_namespace ns = true
    · have hb' : (name == "ns" || name == "redirect" || name == "revision" ||
          name == "title") = false := by
        simpa [hmn] using hb
      simp only [Bool.or_eq_false_iff, beq_eq_false_iff_ne] at hb'
      obtain ⟨⟨⟨hn1, hn2⟩, hn3⟩, hn4⟩ := hb'
      simp [page_loop, Reader.read, hmn, hn1, hn2, hn3, hn4, hskip, hcont,
        lastPos, lastPos_append]
    · simp [page_loop, Reader.read, hmn, hskip, hcont, lastPos, lastPos_append]
  | misc f m n rd tx ti s p rest pg _ ih =>
    intro tail pos
    obtain ⟨fl, hfl⟩ := ih tail p
    refine ⟨fl + 1, fun g => ?_⟩
    have harith : fl + 1 + g = (fl + g) + 1 := by omega
    rw [harith]
    simp [page_loop, Reader.read, lastPos, hfl g]
  | other f m n rd tx ti p rest pg _ ih =>
    intro tail pos
    obtain ⟨fl, hfl⟩ := ih tail p
    refine ⟨fl + 1, fun g => ?_⟩
    have harith : fl + 1 + g = (fl + g) + 1 := by omega
    rw [harith]
    simp [page_loop, Reader.read, lastPos, hfl g]

/-- Well-formed content of the root element after its start tag: `page`
elements (each with well-formed content, all fields initially absent) in
document order, unknown elements and stray text freely interleaved, closed by
the root's end tag.  The second index lists the records of the `page` elements
directly under the root, in document order. -/
inductive RootBody : List TE → List (Page Int) → Prop where
  | done (p : Nat) : RootBody [(Event.endTag, p)] []
  | page (attrs : List (String × String)) (p : Nat) (body rest : List TE)
      (pg : Page Int) (pgs : List (Page Int)) :
      PageBody none none none none none none body pg → RootBody rest pgs →
      RootBody ((Event.start (some exportNS) "page" attrs, p) :: body ++ rest)
        (pg :: pgs)
  | unknown (ns : Option String) (name : String) (attrs : List (String × String))
      (p : Nat) (body rest : List TE) (pgs : List (Page Int)) :
      (match_namespace ns && name == "page") = false →
      SkipBody body → RootBody rest pgs →
      RootBody ((Event.start ns name attrs, p) :: body ++ rest) pgs
  | misc (s : String) (p : Nat) (rest : List TE) (pgs : List (Page Int)) :
      RootBody rest pgs → RootBody ((Event.text s, p) :: rest) pgs
  | other (p : Nat) (rest : List TE) (pgs : List (Page Int)) :
      RootBody rest pgs → RootBody ((Event.other, p) :: rest) pgs

/-- On well-formed root content the root loop either reports exhaustion (when
no page is left) or yields the first page record, leaving behind well-formed
root content for the remaining records. -/
theorem root_body_first {body : List TE} {pgs : List (Page Int)}
    (h : RootBody body pgs) : ∀ pos : Nat,
    (pgs = [] → ∃ fl s', ∀ g,
      root_loop idConv (fl + g) ⟨body, pos⟩ = some (.ok (none, s'))) ∧
    (∀ pg rest, pgs = pg :: rest → ∃ body' pos', RootBody body' rest ∧
      ∃ fl, ∀ g, root_loop idConv (fl + g) ⟨body, pos⟩ =
        some (.ok (some pg, ⟨body', pos'⟩))) := by
  induction h with
  | done p =>
    intro pos
    constructor
    · intro _
      refine ⟨1, ⟨[], p⟩, fun g => ?_⟩
      have harith : 1 + g = g + 1 := Nat.add_comm 1 g
      rw [harith]
      simp [root_loop, Reader.read]
    · intro pg rest heq
      exact List.noConfusion heq
  | page attrs p pbody rest pg pgs hpage hroot ih =>
    intro pos
    constructor
    · intro heq
      exact List.noConfusion heq
    · intro pg0 rest0 heq
      obtain ⟨rfl, rfl⟩ : pg0 = pg ∧ rest0 = pgs := by
        cases heq; exact ⟨rfl, rfl⟩
      obtain ⟨flp, hflp⟩ := page_body_spec hpage rest p
      refine ⟨rest, lastPos pbody p, hroot, flp + 1, fun g => ?_⟩
      have harith : flp + 1 + g = (flp + g) + 1 := by omega
      rw [harith]
      simp [root_loop, Reader.read, match_namespace, hflp g]
  | unknown ns name attrs p sbody rest pgs hb hsb _ ih =>
    intro pos
    have hstep : ∀ (r : Option (Except (Error × Reader) (Option (Page Int) × Reader)))
        (fl : Nat),
        (∀ g, root_loop idConv (fl + g) ⟨rest, lastPos sbody p⟩ = r) →
        ∀ g, root_loop idConv ((sbody.length + fl + 1) + g)
          ⟨(Event.start ns name attrs, p) :: sbody ++ rest, pos⟩ = r := by
      intro r fl hfl g
      have harith : sbody.length + fl + 1 + g = (sbody.length + (fl + g)) + 1 := by
        omega
      rw [harith]
      have hskip := (skip_element_spec hsb rest p 0 (fl + g)).2
      have hcont := hfl (sbody.length + g)
      have harith2 : fl + (sbody.length + g) = sbody.length + (fl + g) := by omega
      rw [harith2] at hcont
      by_cases hmn : match_namespace ns = true
      · have hb' : (name == "page") = false := by simpa [hmn] using hb
        rw [beq_eq_false_iff_ne] at hb'
        simpa [root_loop, Reader.read, hmn, hb', hskip] using hcont
      · simpa [root_loop, Reader.read, hmn, hskip] using hcont
    constructor
    · intro heq
      obtain ⟨fl, s', hfl⟩ := (ih (lastPos sbody p)).1 heq
      exact ⟨sbody.length + fl + 1, s', hstep _ fl hfl⟩
    · intro pg rest0 heq
      obtain ⟨body', pos', hroot', fl, hfl⟩ := (ih (lastPos sbody p)).2 pg rest0 heq
      exact ⟨body', pos', hroot', sbody.length + fl + 1, hstep _ fl hfl⟩
  | misc s p rest pgs _ ih =>
    intro pos
    have hstep : ∀ (r : Option (Except (Error × Reader) (Option (Page Int) × Reader)))
        (fl : Nat),
        (∀ g, root_loop idConv (fl + g) ⟨rest, p⟩ = r) →
        ∀ g, root_loop idConv ((fl + 1) + g) ⟨(Event.text s, p) :: rest, pos⟩ = r := by
      intro r fl hfl g
      have harith : fl + 1 + g = (fl + g) + 1 := by omega
      rw [harith]
      simpa [root_loop, Reader.read] using hfl g
    constructor
    · intro heq
      obtain ⟨fl, s', hfl⟩ := (ih p).1 heq
      exact ⟨fl + 1, s', hstep _ fl hfl⟩
    · intro pg rest0 heq
      obtain ⟨body', pos', hroot', fl, hfl⟩ := (ih p).2 pg rest0 heq
      exact ⟨body', pos', hroot', fl + 1, hstep _ fl hfl⟩
  | other p rest pgs _ ih =>
    intro pos
    have hstep : ∀ (r : Option (Except (Error × Reader) (Option (Page Int) × Reader)))
        (fl : Nat),
        (∀ g, root_loop idConv (fl + g) ⟨rest, p⟩ = r) →
        ∀ g, root_loop idConv ((fl + 1) + g) ⟨(Event.other, p) :: rest, pos⟩ = r := by
      intro r fl hfl g
      have harith : fl + 1 + g = (fl + g) + 1 := by omega
      rw [harith]
      simpa [root_loop, Reader.read] using hfl g
    constructor
    · intro heq
      obtain ⟨fl, s', hfl⟩ := (ih p).1 heq
      exact ⟨fl + 1, s', hstep _ fl hfl⟩
    · intro pg rest0 heq
      obtain ⟨body', pos', hroot', fl, hfl⟩ := (ih p).2 pg rest0 heq
      exact ⟨body', pos', hroot', fl + 1, hstep _ fl hfl⟩

/-- The defining one-step equation of `collect`. -/
theorem collect_succ {N : Type} (conv : Int → Option N) (fuel steps : Nat)
    (s : Reader) (started : Bool) :
    collect conv fuel (steps + 1) s started =
      match next conv fuel s started with
      | none => none
      | some (.error (e, _, _)) => some [.error e]
      | some (.ok (none, _, _)) => some []
      | some (.ok (some pg, s', st')) =>
        match collect conv fuel steps s' st' with
        | none => none
        | some l => some (.ok pg :: l) := rfl

/-- On well-formed root content the whole result sequence from the started
parser is the pages' records in document order, with no error, closed by
exhaustion. -/
theorem root_body_collect {pgs : List (Page Int)} : ∀ {body : List TE},
    RootBody body pgs → ∀ pos : Nat, ∃ fl steps, ∀ g,
      collect idConv (fl + g) (steps + 1) ⟨body, pos⟩ true =
        some (pgs.map Except.ok) := by
  induction pgs with
  | nil =>
    intro body h pos
    obtain ⟨fl, s', hfl⟩ := (root_body_first h pos).1 rfl
    refine ⟨fl, 0, fun g => ?_⟩
    simp [collect, next, hfl g]
  | cons pg rest ih =>
    intro body h pos
    obtain ⟨body', pos', hroot', fl1, h1⟩ := (root_body_first h pos).2 pg rest rfl
    obtain ⟨fl2, steps2, h2⟩ := ih hroot' pos'
    refine ⟨fl1 + fl2, steps2 + 1, fun g => ?_⟩
    have hn := h1 (fl2 + g)
    have e1 : fl1 + (fl2 + g) = fl1 + fl2 + g := by omega
    rw [e1] at hn
    have hc := h2 (fl1 + g)
    have e2 : fl2 + (fl1 + g) = fl1 + fl2 + g := by omega
    rw [e2] at hc
    have hnx : next idConv (fl1 + fl2 + g) ⟨body, pos⟩ true =
        some (.ok (some pg, ⟨body', pos'⟩, true)) := by
      simp [next, hn]
    rw [collect_succ, hnx]
    simp [hc]

/-- A conforming document of the input contract: optional text/other events
(an XML declaration, whitespace, comments), then the `mediawiki` root element
in the export namespace with well-formed content.  The second index lists the
records of the `page` elements directly under the root, in document order. -/
inductive Doc : List TE → List (Page Int) → Prop where
  | root (attrs : List (String × String)) (p : Nat) (body : List TE)
      (pgs : List (Page Int)) :
      RootBody body pgs →
      Doc ((Event.start (some exportNS) "mediawiki" attrs, p) :: body) pgs
  | misc (s : String) (p : Nat) (rest : List TE) (pgs : List (Page Int)) :
      Doc rest pgs → Doc ((Event.text s, p) :: rest) pgs
  | other (p : Nat) (rest : List TE) (pgs : List (Page Int)) :
      Doc rest pgs → Doc ((Event.other, p) :: rest) pgs

/-- The initial root scan of a conforming document succeeds and leaves behind
well-formed root content. -/
theorem doc_scan {evts : List TE} {pgs : List (Page Int)} (h : Doc evts pgs) :
    ∀ pos : Nat, ∃ fl body pos', RootBody body pgs ∧ ∀ g,
      scan_root (fl + g) ⟨evts, pos⟩ = some (.ok ⟨body, pos'⟩) := by
  induction h with
  | root attrs p body pgs hroot =>
    intro pos
    refine ⟨1, body, p, hroot, fun g => ?_⟩
    have harith : 1 + g = g + 1 := Nat.add_comm 1 g
    rw [harith]
    simp [scan_root, Reader.read, match_namespace]
  | misc s p rest pgs _ ih =>
    intro pos
    obtain ⟨fl, body, pos', hroot, hfl⟩ := ih p
    refine ⟨fl + 1, body, pos', hroot, fun g => ?_⟩
    have harith : fl + 1 + g = (fl + g) + 1 := by omega
    rw [harith]
    simpa [scan_root, Reader.read] using hfl g
  | other p rest pgs _ ih =>
    intro pos
    obtain ⟨fl, body, pos', hroot, hfl⟩ := ih p
    refine ⟨fl + 1, body, pos', hroot, fun g => ?_⟩
    have harith : fl + 1 + g = (fl + g) + 1 := by omega
    rw [harith]
    simpa [scan_root, Reader.read] using hfl g

/-- C2: for every well-formed input conforming to the section-6 input contract
(a `mediawiki` root in the export namespace whose direct-child `page` elements
each contain exactly one `ns`, `title` and `revision`, the revision containing
a `text` element, with unknown elements and stray text anywhere — the `Doc`
grammar, whose page list has exactly one entry per `page` element directly
under the root, in document order), the sequence produced by the parser is
exactly the records of those `page` elements in document order, with no errors:
the run terminates with the records of `pgs` followed by exhaustion. -/
theorem c2_conforming_docs {evts : List TE} {pgs : List (Page Int)}
    (h : Doc evts pgs) :
    ∃ fuel steps, collect idConv fuel steps ⟨evts, 0⟩ false =
      some (pgs.map Except.ok) := by
  obtain ⟨fl1, body, pos', hroot, hscan⟩ := doc_scan h 0
  obtain ⟨fl2, steps2, hcol⟩ := root_body_collect hroot pos'
  refine ⟨fl1 + fl2, steps2 + 1, ?_⟩
  have hs := hscan fl2
  have hc := hcol fl1
  have e2 : fl2 + fl1 = fl1 + fl2 := by omega
  rw [e2] at hc
  have hnx : next idConv (fl1 + fl2) ⟨evts, 0⟩ false =
      next (N := Int) idConv (fl1 + fl2) ⟨body, pos'⟩ true := by
    simp [next, hs]
  rw [collect_succ, hnx, ← collect_succ, hc]

/-- A minimal conforming document used to instantiate `c2_conforming_docs`:
one page with `ns` 0, `title` `t` and a revision containing only `text` `b`. -/
def miniDoc : List TE :=
  [ (Event.start (some exportNS) "mediawiki" [], 1),
    (Event.start (some exportNS) "page" [], 2),
    (Event.start (some exportNS) "ns" [], 3),
    (Event.text "0", 4),
    (Event.endTag, 5),
    (Event.start (some exportNS) "title" [], 6),
    (Event.text "t", 7),
    (Event.endTag, 8),
    (Event.start (some exportNS) "revision" [], 9),
    (Event.start (some exportNS) "text" [], 10),
    (Event.text "b", 11),
    (Event.endTag, 12),
    (Event.endTag, 13),
    (Event.endTag, 14),
    (Event.endTag, 15) ]

/-- Witness for C2: the hypotheses of `c2_conforming_docs` hold for the
concrete document `miniDoc`, whose single page yields exactly one record. -/
theorem c2_conforming_docs_witness :
    ∃ fuel steps, collect idConv fuel steps ⟨miniDoc, 0⟩ false =
      some [Except.ok ⟨none, none, 0, "b", "t", none⟩] := by
  have hrev : RevBody none none none
      [(Event.start (some exportNS) "text" [], 10), (Event.text "b", 11),
       (Event.endTag, 12), (Event.endTag, 13)] none none "b" := by
    simpa using RevBody.txt none none [] 10
      [(Event.text "b", 11), (Event.endTag, 12)] "b" [(Event.endTag, 13)]
      none none "b" (FieldBody.text "b" 11 12) (RevBody.done none none "b" 13)
  have hdone : PageBody none none (some 0) none (some "b") (some "t")
      [(Event.endTag, 14)] ⟨none, none, 0, "b", "t", none⟩ :=
    PageBody.done none none 0 none "b" "t" 14
  have hrevEl : PageBody none none (some 0) none none (some "t")
      [(Event.start (some exportNS) "revision" [], 9),
       (Event.start (some exportNS) "text" [], 10), (Event.text "b", 11),
       (Event.endTag, 12), (Event.endTag, 13), (Event.endTag, 14)]
      ⟨none, none, 0, "b", "t", none⟩ := by
    simpa using PageBody.revisionElem (some 0) none (some "t") [] 9
      [(Event.start (some exportNS) "text" [], 10), (Event.text "b", 11),
       (Event.endTag, 12), (Event.endTag, 13)]
      none none "b" [(Event.endTag, 14)] ⟨none, none, 0, "b", "t", none⟩ hrev hdone
  have htitle : PageBody none none (some 0) none none none
      [(Event.start (some exportNS) "title" [], 6), (Event.text "t", 7),
       (Event.endTag, 8),
       (Event.start (some exportNS) "revision" [], 9),
       (Event.start (some exportNS) "text" [], 10), (Event.text "b", 11),
       (Event.endTag, 12), (Event.endTag, 13), (Event.endTag, 14)]
      ⟨none, none, 0, "b", "t", none⟩ := by
    simpa using PageBody.titleElem none none (some 0) none none [] 6
      [(Event.text "t", 7), (Event.endTag, 8)] "t"
      [(Event.start (some exportNS) "revision" [], 9),
       (Event.start (some exportNS) "text" [], 10), (Event.text "b", 11),
       (Event.endTag, 12), (Event.endTag, 13), (Event.endTag, 14)]
      ⟨none, none, 0, "b", "t", none⟩ (FieldBody.text "t" 7 8) hrevEl
  have hpage : PageBody none none none none none none
      [(Event.start (some exportNS) "ns" [], 3), (Event.text "0", 4),
       (Event.endTag, 5),
       (Event.start (some exportNS) "title" [], 6), (Event.text "t", 7),
       (Event.endTag, 8),
       (Event.start (some exportNS) "revision" [], 9),
       (Event.start (some exportNS) "text" [], 10), (Event.text "b", 11),
       (Event.endTag, 12), (Event.endTag, 13), (Event.endTag, 14)]
      ⟨none, none, 0, "b", "t", none⟩ := by
    simpa using PageBody.nsElem none none none none none [] 3
      [(Event.text "0", 4), (Event.endTag, 5)] "0" 0
      [(Event.start (some exportNS) "title" [], 6), (Event.text "t", 7),
       (Event.endTag, 8),
       (Event.start (some exportNS) "revision" [], 9),
       (Event.start (some exportNS) "text" [], 10), (Event.text "b", 11),
       (Event.endTag, 12), (Event.endTag, 13), (Event.endTag, 14)]
      ⟨none, none, 0, "b", "t", none⟩ (FieldBody.text "0" 4 5) (by decide) htitle
  have hroot : RootBody
      [(Event.start (some exportNS) "page" [], 2),
       (Event.start (some exportNS) "ns" [], 3), (Event.text "0", 4),
       (Event.endTag, 5),
       (Event.start (some exportNS) "title" [], 6), (Event.text "t", 7),
       (Event.endTag, 8),
       (Event.start (some exportNS) "revision" [], 9),
       (Event.start (some exportNS) "text" [], 10), (Event.text "b", 11),
       (Event.endTag, 12), (Event.endTag, 13), (Event.endTag, 14),
       (Event.endTag, 15)]
      [⟨none, none, 0, "b", "t", none⟩] := by
    simpa using RootBody.page [] 2
      [(Event.start (some exportNS) "ns" [], 3), (Event.text "0", 4),
       (Event.endTag, 5),
       (Event.start (some exportNS) "title" [], 6), (Event.text "t", 7),
       (Event.endTag, 8),
       (Event.start (some exportNS) "revision" [], 9),
       (Event.start (some exportNS) "text" [], 10), (Event.text "b", 11),
       (Event.endTag, 12), (Event.endTag, 13), (Event.endTag, 14)]
      [(Event.endTag, 15)] ⟨none, none, 0, "b", "t", none⟩ [] hpage
      (RootBody.done 15)
  have hdoc : Doc miniDoc [⟨none, none, 0, "b", "t", none⟩] :=
    Doc.root [] 1 _ _ hroot
  simpa using c2_conforming_docs hdoc

/-- The event stream of the spec's end-to-end scenario A: a `mediawiki` root in
the export namespace with two `page` children — the first with `ns` 0, `title`
`alpha` and a revision carrying `format`, `model` and `text`; the second with
`title` `epsilon`, `ns` 42, a `redirect` with `title="zeta"` (a self-closing
tag, expanded to start+end) and a revision carrying only `text`.  Whitespace
between tags appears as text events; positions are increasing. -/
def scenarioA : List TE :=
  [ (Event.start (some exportNS) "mediawiki" [], 1),
    (Event.text "\n  ", 2),
    (Event.start (some exportNS) "page" [], 3),
    (Event.start (some exportNS) "ns" [], 4),
    (Event.text "0", 5),
    (Event.endTag, 6),
    (Event.start (some exportNS) "title" [], 7),
    (Event.text "alpha", 8),
    (Event.endTag, 9),
    (Event.text "\n    ", 10),
    (Event.start (some exportNS) "revision" [], 11),
    (Event.start (some exportNS) "format" [], 12),
    (Event.text "beta", 13),
    (Event.endTag, 14),
    (Event.start (some exportNS) "model" [], 15),
    (Event.text "gamma", 16),
    (Event.endTag, 17),
    (Event.start (some exportNS) "text" [], 18),
    (Event.text "delta", 19),
    (Event.endTag, 20),
    (Event.endTag, 21),
    (Event.text "\n  ", 22),
    (Event.endTag, 23),
    (Event.text "\n  ", 24),
    (Event.start (some exportNS) "page" [], 25),
    (Event.start (some exportNS) "title" [], 26),
    (Event.text "epsilon", 27),
    (Event.endTag, 28),
    (Event.start (some exportNS) "ns" [], 29),
    (Event.text "42", 30),
    (Event.endTag, 31),
    (Event.start (some exportNS) "redirect" [("title", "zeta")], 32),
    (Event.endTag, 33),
    (Event.text "\n    ", 34),
    (Event.start (some exportNS) "revision" [], 35),
    (Event.start (some exportNS) "text" [], 36),
    (Event.text "eta", 37),
    (Event.endTag, 38),
    (Event.endTag, 39),
    (Event.text "\n  ", 40),
    (Event.endTag, 41),
    (Event.text "\n", 42),
    (Event.endTag, 43) ]

/-- C1: on the scenario-A input the parser (with the default `NamespaceId`
conversion of `parse`) yields exactly two `Ok` records in order — first
`{namespace := 0, title := "alpha", format := some "beta", model := some
"gamma", text := "delta", redirect_title := none}`, then `{namespace := 42,
title := "epsilon", format := none, model := none, text := "eta",
redirect_title := some "zeta"}` — and then reports exhaustion: with three
iterator pulls available, the collected sequence closes after exactly these two
records, which `collect` only does when the third pull returns `Ok(None)`. -/
theorem c1_scenario_a :
    collect idConv 60 3 ⟨scenarioA, 0⟩ false =
      some [Except.ok ⟨some "beta", some "gamma", 0, "delta", "alpha", none⟩,
            Except.ok ⟨none, none, 42, "eta", "epsilon", some "zeta"⟩] := by
  rfl

/-- C4: when the end tag of a `page` element is reached, the parser emits a
completed record if and only if all three of namespace, text and title have
been collected; otherwise it returns a format error whose byte position is the
page's end-tag position (the position reported after consuming that end tag). -/
theorem c4_page_end_tag {N : Type} (conv : Int → Option N) (fuel : Nat)
    (f m : Option String) (n : Option N) (rd tx ti : Option String)
    (p pos : Nat) (rest : List TE) :
    page_loop conv (fuel + 1) ⟨(Event.endTag, p) :: rest, pos⟩ f m n rd tx ti =
      match n, tx, ti with
      | some nv, some txv, some tiv =>
        some (.ok (⟨f, m, nv, txv, tiv, rd⟩, ⟨rest, p⟩))
      | _, _, _ => some (.error (.Format p, ⟨rest, p⟩)) := by
  cases n <;> cases tx <;> cases ti <;> simp [page_loop, Reader.read]

/-- C5: the text-field reader accepts exactly two event shapes — a text event
immediately followed by the matching end tag (returning that text), or an end
tag immediately following the start tag (returning the empty string) — and
returns a format error at the current position for any other event in either
slot (including end of events); if the field already holds a recorded value it
returns a format error at once, consuming nothing and overwriting nothing. -/
theorem c5_parse_text_shapes {α : Type} (s : Reader) (output : Option α) :
    parse_text s output =
      if output.isSome then .error (.Format s.pos, s)
      else
        match s.events with
        | (Event.text t, _) :: (Event.endTag, q) :: rest => .ok (t, ⟨rest, q⟩)
        | (Event.endTag, p) :: rest => .ok ("", ⟨rest, p⟩)
        | (Event.text _, _) :: (_, q) :: rest => .error (.Format q, ⟨rest, q⟩)
        | [(Event.text _, p)] => .error (.Format p, ⟨[], p⟩)
        | (_, p) :: rest => .error (.Format p, ⟨rest, p⟩)
        | [] => .error (.Format s.pos, s) := by
  rcases s with ⟨evs, pos⟩
  cases output with
  | some v => simp [parse_text]
  | none =>
    match evs with
    | [] => simp [parse_text, Reader.read]
    | [(Event.text t, p)] => simp [parse_text, Reader.read]
    | (Event.text t, p) :: (Event.endTag, q) :: rest =>
      simp [parse_text, Reader.read]
    | (Event.text t, p) :: (Event.start ns nm a, q) :: rest =>
      simp [parse_text, Reader.read]
    | (Event.text t, p) :: (Event.text t2, q) :: rest =>
      simp [parse_text, Reader.read]
    | (Event.text t, p) :: (Event.other, q) :: rest =>
      simp [parse_text, Reader.read]
    | (Event.endTag, p) :: rest => simp [parse_text, Reader.read]
    | (Event.start ns nm a, p) :: rest => simp [parse_text, Reader.read]
    | (Event.other, p) :: rest => simp [parse_text, Reader.read]

/-- C6: a start tag whose bound namespace does not match the export namespace
URI (including an absent namespace) is treated as unknown at every recognition
site — inside a page, inside a revision, and directly under the root — whatever
its local name (in particular for the recognized names `page`, `ns`, `title`,
`redirect`, `revision`, `format`, `model`, `text`): its entire subtree is
skipped, no field is recorded from it, no error is raised, and the loop
continues behind the skipped subtree. -/
theorem c6_namespace_mismatch_skipped {N : Type} (conv : Int → Option N)
    {ns : Option String} {body : List TE}
    (hns : match_namespace ns = false) (hsb : SkipBody body)
    (name : String) (attrs : List (String × String)) (p pos g : Nat)
    (rest : List TE) (f m : Option String) (n : Option N)
    (rd tx ti : Option String) :
    page_loop conv (body.length + g + 1)
        ⟨(Event.start ns name attrs, p) :: body ++ rest, pos⟩ f m n rd tx ti =
      page_loop conv (body.length + g) ⟨rest, lastPos body p⟩ f m n rd tx ti ∧
    revision_loop (body.length + g + 1)
        ⟨(Event.start ns name attrs, p) :: body ++ rest, pos⟩ f m tx =
      revision_loop (body.length + g) ⟨rest, lastPos body p⟩ f m tx ∧
    root_loop conv (body.length + g + 1)
        ⟨(Event.start ns name attrs, p) :: body ++ rest, pos⟩ =
      root_loop conv (body.length + g) ⟨rest, lastPos body p⟩ := by
  have hskip := (skip_element_spec hsb rest p 0 g).2
  refine ⟨?_, ?_, ?_⟩
  · simp [page_loop, Reader.read, hns, hskip]
  · simp [revision_loop, Reader.read, hns, hskip]
  · simp [root_loop, Reader.read, hns, hskip]

/-- Witness for C6: a `page` start tag with no bound namespace and an empty
body is skipped at all three recognition sites. -/
theorem c6_namespace_mismatch_skipped_witness :
    page_loop idConv (([(Event.endTag, 7)] : List TE).length + 0 + 1)
        ⟨(Event.start none "page" [], 5) :: [(Event.endTag, 7)] ++ [], 0⟩
        none none none none none none =
      page_loop idConv (([(Event.endTag, 7)] : List TE).length + 0)
        ⟨[], lastPos [(Event.endTag, 7)] 5⟩ none none none none none none ∧
    revision_loop (([(Event.endTag, 7)] : List TE).length + 0 + 1)
        ⟨(Event.start none "page" [], 5) :: [(Event.endTag, 7)] ++ [], 0⟩
        none none none =
      revision_loop (([(Event.endTag, 7)] : List TE).length + 0)
        ⟨[], lastPos [(Event.endTag, 7)] 5⟩ none none none ∧
    root_loop idConv (([(Event.endTag, 7)] : List TE).length + 0 + 1)
        ⟨(Event.start none "page" [], 5) :: [(Event.endTag, 7)] ++ [], 0⟩ =
      root_loop idConv (([(Event.endTag, 7)] : List TE).length + 0)
        ⟨[], lastPos [(Event.endTag, 7)] 5⟩ :=
  c6_namespace_mismatch_skipped idConv
    (show match_namespace none = false from rfl) (SkipBody.endTag 7) "page" []
    5 0 0 [] none none none none none none

/-- The events remaining after the second `revision` start tag of `c3events`:
a complete `page` element and the closing tags of the outer structure are still
ahead of the reader when the `NotSupported` error is returned. -/
def c3rest : List TE :=
  [ (Event.start (some exportNS) "page" [], 15),
    (Event.start (some exportNS) "ns" [], 16),
    (Event.text "0", 17),
    (Event.endTag, 18),
    (Event.start (some exportNS) "title" [], 19),
    (Event.text "b", 20),
    (Event.endTag, 21),
    (Event.start (some exportNS) "revision" [], 22),
    (Event.start (some exportNS) "text" [], 23),
    (Event.text "y", 24),
    (Event.endTag, 25),
    (Event.endTag, 26),
    (Event.endTag, 27) ]

/-- Scenario-B-style input: a `page` whose first `revision` completes normally
and which then contains a second `revision` start tag at position 14, followed
by the events of `c3rest`. -/
def c3events : List TE :=
  [ (Event.start (some exportNS) "mediawiki" [], 1),
    (Event.start (some exportNS) "page" [], 2),
    (Event.start (some exportNS) "ns" [], 3),
    (Event.text "0", 4),
    (Event.endTag, 5),
    (Event.start (some exportNS) "title" [], 6),
    (Event.text "a", 7),
    (Event.endTag, 8),
    (Event.start (some exportNS) "revision" [], 9),
    (Event.start (some exportNS) "text" [], 10),
    (Event.text "x", 11),
    (Event.endTag, 12),
    (Event.endTag, 13),
    (Event.start (some exportNS) "revision" [], 14) ] ++ c3rest

/-- Counterexample to C3 as stated: on `c3events` the first request returns the
`NotSupported` error at position 14 (the second `revision` start tag), yet the
next request, resuming from that position, yields a further `Ok` page record —
so extraction does continue past that page, contradicting the claim's final
clause. -/
theorem c3_counterexample :
    next idConv 50 ⟨c3events, 0⟩ false =
      some (.error (.NotSupported 14, ⟨c3rest, 14⟩, true)) ∧
    next idConv 50 ⟨c3rest, 14⟩ true =
      some (.ok (some ⟨none, none, 0, "y", "b", none⟩, ⟨[], 27⟩, true)) :=
  ⟨rfl, rfl⟩

/-- C3 (amended): a second `revision` start tag in the export namespace inside
a `page` whose revision text is already recorded makes the parser return the
dedicated `NotSupported` error — not a generic format error — carrying the byte
position of that second `revision` start tag; the failing request yields no
record, but the parser is not exhausted: resuming from that position, a
subsequent request may yield further page records (demonstrated on `c3rest`). -/
theorem c3_second_revision_not_supported :
    (∀ {N : Type} (conv : Int → Option N) (fuel : Nat)
      (attrs : List (String × String)) (p pos : Nat) (rest : List TE)
      (f m : Option String) (n : Option N) (rd : Option String) (tx : String)
      (ti : Option String),
      page_loop conv (fuel + 1)
          ⟨(Event.start (some exportNS) "revision" attrs, p) :: rest, pos⟩
          f m n rd (some tx) ti =
        some (.error (.NotSupported p, ⟨rest, p⟩))) ∧
    next idConv 50 ⟨c3rest, 14⟩ true =
      some (.ok (some ⟨none, none, 0, "y", "b", none⟩, ⟨[], 27⟩, true)) := by
  constructor
  · intro N conv fuel attrs p pos rest f m n rd tx ti
    simp [page_loop, Reader.read, match_namespace]
  · rfl

/-- A document truncated right after its root start tag: the event stream ends
(the external reader keeps reporting `Eof`) while the parser is scanning for
page elements. -/
def truncatedDoc : List TE := [(Event.start (some exportNS) "mediawiki" [], 10)]

theorem root_loop_empty_none {N : Type} (conv : Int → Option N) :
    ∀ (fuel pos : Nat), root_loop conv fuel ⟨[], pos⟩ = none := by
  intro fuel
  induction fuel with
  | zero => intro pos; rfl
  | succ k ih => intro pos; simpa [root_loop, Reader.read] using ih pos

/-- C7 is contradicted by the code: on the truncated document the next-record
request never terminates for any fuel bound — the `Eof` events fall into the
catch-all `continue` arms of the loops of `next`, so no format error is ever
returned; the computation runs out of any finite fuel instead. -/
theorem c7_truncated_input_never_returns :
    ∀ fuel : Nat, next (N := Int) idConv fuel ⟨truncatedDoc, 0⟩ false = none := by
  intro fuel
  cases fuel with
  | zero => rfl
  | succ k =>
    have hscan : scan_root (k + 1) ⟨truncatedDoc, 0⟩ = some (.ok ⟨[], 10⟩) := by
      simp [scan_root, Reader.read, truncatedDoc, match_namespace]
    simp [next, hscan, root_loop_empty_none]

/-- A further complete `page` element that sits after the root's end tag in
`c8events`. -/
def c8page2 : List TE :=
  [ (Event.start (some exportNS) "page" [], 18),
    (Event.start (some exportNS) "ns" [], 19),
    (Event.text "1", 20),
    (Event.endTag, 21),
    (Event.start (some exportNS) "title" [], 22),
    (Event.text "c", 23),
    (Event.endTag, 24),
    (Event.start (some exportNS) "revision" [], 25),
    (Event.start (some exportNS) "text" [], 26),
    (Event.text "v", 27),
    (Event.endTag, 28),
    (Event.endTag, 29),
    (Event.endTag, 30) ]

/-- The events remaining after the first (empty) page of `c8events`: a root end
tag preceded by one complete page, followed by `c8page2`. -/
def c8tail : List TE := (Event.endTag, 17) :: c8page2

/-- The events remaining after the format error of `c8events`: first a complete
page, then `c8tail`. -/
def c8rest : List TE :=
  [ (Event.start (some exportNS) "page" [], 4),
    (Event.start (some exportNS) "ns" [], 5),
    (Event.text "0", 6),
    (Event.endTag, 7),
    (Event.start (some exportNS) "title" [], 8),
    (Event.text "b", 9),
    (Event.endTag, 10),
    (Event.start (some exportNS) "revision" [], 11),
    (Event.start (some exportNS) "text" [], 12),
    (Event.text "u", 13),
    (Event.endTag, 14),
    (Event.endTag, 15),
    (Event.endTag, 16) ] ++ c8tail

/-- A root whose first page is empty (format error at its end tag, position 3),
followed by a complete page, the root end tag, and — after the root end tag —
one more complete page element. -/
def c8events : List TE :=
  [ (Event.start (some exportNS) "mediawiki" [], 1),
    (Event.start (some exportNS) "page" [], 2),
    (Event.endTag, 3) ] ++ c8rest

/-- Counterexample to C8 as stated: on `c8events` the first request returns a
format error, yet the second request — made after that error — returns a
further `Ok` page record, so the sequence is not terminal after its first
failure. -/
theorem c8_counterexample :
    next idConv 60 ⟨c8events, 0⟩ false =
      some (.error (.Format 3, ⟨c8rest, 3⟩, true)) ∧
    next idConv 60 ⟨c8rest, 3⟩ true =
      some (.ok (some ⟨none, none, 0, "u", "b", none⟩, ⟨c8tail, 16⟩, true)) :=
  ⟨rfl, rfl⟩

/-- C8 (amended): the parser keeps no exhausted flag, so the result sequence is
not terminal after a failure or exhaustion: a request made after an error
resumes the state machine at the current reader position and can return a
further page record; a request made after natural exhaustion (the root end tag)
can likewise return further items.  Demonstrated on `c8events`: error, then a
record, then exhaustion, then another record. -/
theorem c8_not_fused :
    next idConv 60 ⟨c8events, 0⟩ false =
      some (.error (.Format 3, ⟨c8rest, 3⟩, true)) ∧
    next idConv 60 ⟨c8rest, 3⟩ true =
      some (.ok (some ⟨none, none, 0, "u", "b", none⟩, ⟨c8tail, 16⟩, true)) ∧
    next idConv 60 ⟨c8tail, 16⟩ true =
      some (.ok (none, ⟨c8page2, 17⟩, true)) ∧
    next idConv 60 ⟨c8page2, 17⟩ true =
      some (.ok (some ⟨none, none, 1, "v", "c", none⟩, ⟨[], 30⟩, true)) :=
  ⟨rfl, rfl, rfl, rfl⟩

/-- C9: when an `ns` element in the export namespace holds a text whose parse
as a signed 32-bit integer succeeds but the caller-supplied conversion fails on
the parsed value, the parser returns a namespace error carrying exactly that
integer and the current byte position; when the text does not parse as a signed
32-bit integer at all, it returns a generic format error instead (and on
success the converted value is stored and the page loop continues). -/
theorem c9_namespace_resolution {N : Type} (conv : Int → Option N) (fuel : Nat)
    (attrs : List (String × String)) (str : String) (p q r pos : Nat)
    (rest : List TE) (f m : Option String) (rd tx ti : Option String) :
    page_loop conv (fuel + 1)
        ⟨(Event.start (some exportNS) "ns" attrs, p) :: (Event.text str, q) ::
          (Event.endTag, r) :: rest, pos⟩ f m none rd tx ti =
      match parseI32 str with
      | none => some (.error (.Format r, ⟨rest, r⟩))
      | some value =>
        match conv value with
        | none => some (.error (.Namespace value r, ⟨rest, r⟩))
        | some n => page_loop conv fuel ⟨rest, r⟩ f m (some n) rd tx ti := by
  cases hI : parseI32 str with
  | none => simp [page_loop, Reader.read, parse_text, match_namespace, hI]
  | some value =>
    cases hc : conv value with
    | none => simp [page_loop, Reader.read, parse_text, match_namespace, hI, hc]
    | some n => simp [page_loop, Reader.read, parse_text, match_namespace, hI, hc]

/-- C10: two `redirect` elements in the export namespace, each carrying a
`title` attribute, are not rejected as a duplicate field: the page loop records
the first title, then silently overwrites it with the second and continues with
no error — unlike the simple text fields, for which a second occurrence (shown
here for `title`) is an immediate format error at the duplicate's start tag. -/
theorem c10_redirect_not_duplicate_checked {N : Type} (conv : Int → Option N)
    (g : Nat) (t1 t2 : String) (a1 a2 : List (String × String))
    (p1 p2 p3 p4 pos : Nat) (rest : List TE)
    (f m : Option String) (n : Option N) (rd tx ti : Option String) :
    page_loop conv (g + 4)
        ⟨(Event.start (some exportNS) "redirect" (("title", t1) :: a1), p1) ::
          (Event.endTag, p2) ::
          (Event.start (some exportNS) "redirect" (("title", t2) :: a2), p3) ::
          (Event.endTag, p4) :: rest, pos⟩ f m n rd tx ti =
      page_loop conv (g + 2) ⟨rest, p4⟩ f m n (some t2) tx ti ∧
    (∀ v : String,
      page_loop conv (g + 4)
          ⟨(Event.start (some exportNS) "title" a1, p1) :: rest, pos⟩
          f m n rd tx (some v) =
        some (.error (.Format p1, ⟨rest, p1⟩))) := by
  have hs : ∀ (k : Nat) (rest0 : List TE) (pp pos0 : Nat),
      skip_element (k + 1) ⟨(Event.endTag, pp) :: rest0, pos0⟩ 0 =
        some ⟨rest0, pp⟩ := by
    intro k rest0 pp pos0
    simp [skip_element, Reader.read]
  have e4 : g + 4 = (((g + 1) + 1) + 1) + 1 := rfl
  have e2 : g + 2 = (g + 1) + 1 := rfl
  constructor
  · rw [e4, e2]
    conv_lhs => rw [page_loop]
    simp only [Reader.read, match_namespace, findTitleAttr]
    simp [hs]
    conv_lhs => rw [page_loop]
    simp only [Reader.read, match_namespace, findTitleAttr]
    simp [hs]
  · intro v
    rw [e4]
    conv_lhs => rw [page_loop]
    simp [Reader.read, parse_text, match_namespace]

end ParseMediawikiDump
